import Mathlib

/-!
Verification of the modbus-serve-csv simulation engine.

This file gives a shallow embedding, in Lean 4, of the core of the
modbus-serve-csv repository (package cmd: root.go, server.go and the
utility file holding GCD, GCDSlice, contains, minSliceUint), and proves
or refutes the frozen specification claims about it.

Modelling conventions:
- Go uint16 values are modelled as Nat; arithmetic that can overflow a
  uint16 (the product GCD*timestep in initSim, the index sum
  start+uint16(i) in replaceSubSlice) carries an explicit % 65536.
- float64 expressions (the base-tick computation in initSim) are modelled
  as exact rationals; the operands involved are small enough that the Go
  float64 arithmetic is exact except for the final division, which the
  model performs exactly.
- cobra.CheckErr(err) with a non-nil err prints the error and calls
  os.Exit(1); the model reports this as the outcome GoFail.exit.
  A Go runtime panic (index out of range, slicing a nil record) is the
  outcome GoFail.panicked.
- Decoded CSV cells are modelled by the tagged type GoVal, recording the
  value produced by the strconv parse that the source performs for each
  declared value type; the serialisation of that value by binary.Write
  into a byte buffer is a function of the GoVal and the byte order, and
  binary.Write to a bytes.Buffer never returns a non-nil error for the
  fixed-size types used here, so the guard (err == nil) in readRecord is
  always taken after a successful parse. Equality of GoVal entails
  equality of the byte buffers the source stores.
- The success predicate of strconv.ParseFloat (IEEE-754 grammar together
  with its range-error behaviour) is kept abstract as a parameter
  (FloatParse); every theorem quantifies over it, so each holds in
  particular for the true Go predicate. All other strconv parsers
  (ParseBool, ParseInt, ParseUint, base 10) are modelled exactly.
-/

/-! Section: Utility functions (GCD, GCDSlice, contains, minSliceUint) -/

/-- Euclid's algorithm, from the source:
    func GCD(p, q uint16) uint16 { if q == 0 { return p }; r := p % q; return GCD(q, r) } -/
def goGCD (p q : Nat) : Nat :=
  if h : q = 0 then p else goGCD q (p % q)
termination_by q
decreasing_by exact Nat.mod_lt _ (Nat.pos_of_ne_zero h)

/-- GCDSlice from the source; Go panics when the slice has fewer than two
    elements (it reads slice[0] and slice[1]), the model returns 0 there:
    x, y, z := slice[0], slice[1], slice[2:]; r := GCD(x, y);
    if len(z) == 0 { return r }; s := append(z, r); return GCDSlice(s) -/
def GCDSlice : List Nat → Nat
  | [] => 0
  | [_] => 0
  | x :: y :: z =>
    if z.isEmpty then goGCD x y else GCDSlice (z ++ [goGCD x y])
termination_by l => l.length
decreasing_by simp [List.length_append]

/-- minSliceUint from the source; Go panics on an empty slice (it reads
    array[0]), the model returns 0 there:
    min := array[0]; for _, value := range array { if min > value { min = value } } -/
def minSliceUint (l : List Nat) : Nat :=
  match l with
  | [] => 0
  | a :: _ => l.foldl (fun m v => if m > v then v else m) a

/-- The mathematical gcd of a list, used as the specification-side notion
    of the greatest common divisor of the whole period list. -/
def gcdList (l : List Nat) : Nat := l.foldr Nat.gcd 0

theorem goGCD_eq_gcd (p q : Nat) : goGCD p q = Nat.gcd p q := by
  induction q using Nat.strong_induction_on generalizing p with
  | _ q ih =>
    rw [goGCD]
    by_cases h : q = 0
    · simp [h]
    · have hlt : p % q < q := Nat.mod_lt _ (Nat.pos_of_ne_zero h)
      simp only [h, dite_false]
      rw [ih (p % q) hlt q]
      rw [Nat.gcd_comm q (p % q), ← Nat.gcd_rec q p, Nat.gcd_comm q p]

theorem gcdList_cons (a : Nat) (l : List Nat) :
    gcdList (a :: l) = Nat.gcd a (gcdList l) := rfl

theorem gcdList_append (a b : List Nat) :
    gcdList (a ++ b) = Nat.gcd (gcdList a) (gcdList b) := by
  induction a with
  | nil => simp [gcdList]
  | cons x xs ih =>
    simp only [List.cons_append, gcdList_cons, ih]
    exact (Nat.gcd_assoc x (gcdList xs) (gcdList b)).symm

theorem gcdList_dvd {l : List Nat} {x : Nat} (hx : x ∈ l) : gcdList l ∣ x := by
  induction l with
  | nil => cases hx
  | cons a as ih =>
    rcases List.mem_cons.mp hx with h | h
    · subst h; exact Nat.gcd_dvd_left _ _
    · exact dvd_trans (Nat.gcd_dvd_right _ _) (ih h)

theorem gcdList_pos {l : List Nat} (hne : l ≠ []) (hpos : ∀ p ∈ l, 0 < p) :
    0 < gcdList l := by
  cases l with
  | nil => exact absurd rfl hne
  | cons a as =>
    have ha : 0 < a := hpos a (List.mem_cons_self a as)
    have : Nat.gcd a (gcdList as) ≠ 0 := by
      intro h
      rcases Nat.gcd_eq_zero_iff.mp h with ⟨h1, _⟩
      omega
    simpa [gcdList_cons] using Nat.pos_of_ne_zero this

theorem GCDSlice_eq_gcdList (l : List Nat) (hl : 2 ≤ l.length) :
    GCDSlice l = gcdList l := by
  induction l using GCDSlice.induct with
  | case1 => simp at hl
  | case2 => simp at hl
  | case3 x y z hz =>
    have hze : z = [] := by first | exact hz | exact List.isEmpty_iff.mp hz
    subst hze
    rw [GCDSlice]
    simp [gcdList, goGCD_eq_gcd]
  | case4 x y z hz ih =>
    have hzne : z ≠ [] := by
      intro hc
      exact hz (by simp [hc])
    have hze : z.isEmpty = false := by
      cases z with
      | nil => exact absurd rfl hzne
      | cons _ _ => rfl
    have hzlen : 1 ≤ z.length := by
      cases z with
      | nil => exact absurd rfl hzne
      | cons _ _ => simp
    rw [GCDSlice, hze]
    simp only [Bool.false_eq_true, if_false]
    rw [ih (by simp [List.length_append]; omega)]
    rw [gcdList_append]
    have h1 : gcdList [goGCD x y] = Nat.gcd x y := by
      simp [gcdList, goGCD_eq_gcd]
    rw [h1, gcdList_cons, gcdList_cons]
    rw [Nat.gcd_comm (gcdList z) (Nat.gcd x y), Nat.gcd_assoc]

theorem foldl_min_le (l : List Nat) (a : Nat) :
    (l.foldl (fun m v => if m > v then v else m) a) ≤ a ∧
      ∀ x ∈ l, (l.foldl (fun m v => if m > v then v else m) a) ≤ x := by
  induction l generalizing a with
  | nil => simp
  | cons b bs ih =>
    simp only [List.foldl_cons]
    constructor
    · refine le_trans (ih _).1 ?_
      by_cases h : a > b <;> simp [h] <;> omega
    · intro x hx
      rcases List.mem_cons.mp hx with h | h
      · refine le_trans (ih _).1 ?_
        rw [h]
        by_cases hab : a > b <;> simp [hab] <;> omega
      · exact (ih _).2 x h

theorem foldl_min_mem (l : List Nat) (a : Nat) :
    (l.foldl (fun m v => if m > v then v else m) a) = a ∨
      (l.foldl (fun m v => if m > v then v else m) a) ∈ l := by
  induction l generalizing a with
  | nil => simp
  | cons b bs ih =>
    simp only [List.foldl_cons]
    by_cases h : a > b
    · simp only [h, if_true]
      rcases ih b with h1 | h1
      · right; exact List.mem_cons.mpr (Or.inl h1)
      · right; exact List.mem_cons.mpr (Or.inr h1)
    · simp only [h, if_false]
      rcases ih a with h1 | h1
      · left; exact h1
      · right; exact List.mem_cons.mpr (Or.inr h1)

theorem minSliceUint_mem (l : List Nat) (hne : l ≠ []) : minSliceUint l ∈ l := by
  cases l with
  | nil => exact absurd rfl hne
  | cons a as =>
    rcases foldl_min_mem (a :: as) a with h | h
    · rw [minSliceUint, h]; exact List.mem_cons_self a as
    · rw [minSliceUint]; exact h

theorem minSliceUint_le (l : List Nat) {x : Nat} (hx : x ∈ l) :
    minSliceUint l ≤ x := by
  cases l with
  | nil => cases hx
  | cons a as => exact (foldl_min_le (a :: as) a).2 x hx

/-! Section: Rate Coordinator: initSim (root.go, current revision) -/

/-- Result of initSim: the returned base tick (a float64 count of
    nanoseconds, modelled exactly as a rational) together with each
    simulation's baseTickMultiplier field after the call returns
    (NewSimulation initialises that field to the configured Timestep;
    initSim then overwrites or divides it). -/
structure InitResult where
  baseTick : ℚ
  multipliers : List Nat
deriving DecidableEq

/-- initSim from root.go. The argument periods is the list of configured
    Timestep values (uint16) of the accepted configs, in order — the Go
    code accumulates exactly this list in configTimesteps while appending
    one Simulation per accepted config — and timestep is the global -t
    flag (uint16). Branches, in source order:
    contains(uint16(0), configTimesteps) forces every multiplier to 1 and
    returns 1e9*float64(timestep); a single simulation likewise; otherwise
    GCD := configTimesteps[0], replaced by GCDSlice(configTimesteps) when
    the list length is not 1, every multiplier is divided by GCD (uint16
    division), and the return value is 1e9*float64(GCD*timestep)/float64(min),
    where GCD*timestep is a uint16 product (hence the % 65536) and min is
    minSliceUint(configTimesteps). Go would panic on an empty config list
    (it reads configTimesteps[0]); the model returns junk there. The
    MissingRate clamp performed in the accumulation loop does not touch
    the timing data and is omitted. -/
def initSim (periods : List Nat) (timestep : Nat) : InitResult :=
  if 0 ∈ periods then
    { baseTick := (1000000000 : ℚ) * (timestep : ℚ),
      multipliers := periods.map fun _ => 1 }
  else if periods.length = 1 then
    { baseTick := (1000000000 : ℚ) * (timestep : ℚ),
      multipliers := periods.map fun _ => 1 }
  else
    let g := if periods.length ≠ 1 then GCDSlice periods else periods.headD 0
    { baseTick := (1000000000 : ℚ) * (((g * timestep) % 65536 : Nat) : ℚ)
                    / ((minSliceUint periods : Nat) : ℚ),
      multipliers := periods.map fun p => p / g }

theorem initSim_gcd_branch (periods : List Nat) (t : Nat)
    (h0 : 0 ∉ periods) (h2 : 2 ≤ periods.length) :
    initSim periods t =
      { baseTick := (1000000000 : ℚ) * (((GCDSlice periods * t) % 65536 : Nat) : ℚ)
                      / ((minSliceUint periods : Nat) : ℚ),
        multipliers := periods.map fun p => p / GCDSlice periods } := by
  have hne1 : periods.length ≠ 1 := by omega
  rw [initSim, if_neg h0, if_neg (by omega : ¬ periods.length = 1)]
  simp [hne1]

/-- C2: with at least two simulations, all configured periods positive,
    initSim computes g = GCDSlice(periods) = gcd of the whole list (which
    divides every period) and assigns each simulation the multiplier
    period/g; every multiplier is a positive integer and multiplier*g
    recovers the configured period exactly. -/
theorem initSim_multipliers_exact (periods : List Nat) (t : Nat)
    (h2 : 2 ≤ periods.length) (hpos : ∀ p ∈ periods, 0 < p) :
    GCDSlice periods = gcdList periods ∧
    (∀ p ∈ periods, gcdList periods ∣ p) ∧
    (initSim periods t).multipliers = periods.map (fun p => p / gcdList periods) ∧
    ∀ p ∈ periods, 0 < p / gcdList periods ∧ (p / gcdList periods) * gcdList periods = p := by
  have h0 : 0 ∉ periods := by
    intro hc
    exact absurd (hpos 0 hc) (by omega)
  have hne : periods ≠ [] := by
    intro hc
    rw [hc] at h2
    simp at h2
  have hG := GCDSlice_eq_gcdList periods h2
  have hgpos : 0 < gcdList periods := gcdList_pos hne hpos
  refine ⟨hG, fun p hp => gcdList_dvd hp, ?_, ?_⟩
  · rw [initSim_gcd_branch periods t h0 h2, hG]
  · intro p hp
    have hdvd : gcdList periods ∣ p := gcdList_dvd hp
    have hle : gcdList periods ≤ p := Nat.le_of_dvd (hpos p hp) hdvd
    constructor
    · exact Nat.div_pos hle hgpos
    · exact Nat.div_mul_cancel hdvd

/-- C2 witness at periods [4,6], global timestep 7. -/
theorem initSim_multipliers_exact_witness :
    GCDSlice ([4,6] : List Nat) = gcdList [4,6] ∧
    (∀ p ∈ ([4,6] : List Nat), gcdList [4,6] ∣ p) ∧
    (initSim [4,6] 7).multipliers = ([4,6] : List Nat).map (fun p => p / gcdList [4,6]) ∧
    ∀ p ∈ ([4,6] : List Nat), 0 < p / gcdList [4,6] ∧ (p / gcdList [4,6]) * gcdList [4,6] = p :=
  initSim_multipliers_exact [4,6] 7 (by decide) (by decide)

/-- C3: with at least two simulations and no zero period, the base tick
    returned by initSim is 1e9 * ((g * globalTimestep) mod 2^16) / minPeriod
    nanoseconds, where g is the gcd of the period list and minPeriod is its
    true minimum (minSliceUint is proved to be a member of the list that
    bounds every element below). The float64 arithmetic of the source is
    modelled exactly over the rationals. -/
theorem initSim_baseTick_formula (periods : List Nat) (t : Nat)
    (h2 : 2 ≤ periods.length) (h0 : 0 ∉ periods) :
    (initSim periods t).baseTick
      = (1000000000 : ℚ) * (((gcdList periods * t) % 65536 : Nat) : ℚ)
          / ((minSliceUint periods : Nat) : ℚ) ∧
    minSliceUint periods ∈ periods ∧
    ∀ x ∈ periods, minSliceUint periods ≤ x := by
  have hne : periods ≠ [] := by
    intro hc
    rw [hc] at h2
    simp at h2
  refine ⟨?_, minSliceUint_mem periods hne, fun x hx => minSliceUint_le periods hx⟩
  rw [initSim_gcd_branch periods t h0 h2, GCDSlice_eq_gcdList periods h2]

/-- C3 witness: periods [5,5,10] with global period 5 give a base tick of
    5e9 nanoseconds, i.e. 5 seconds. -/
theorem initSim_baseTick_formula_witness :
    (initSim ([5,5,10] : List Nat) 5).baseTick = (5000000000 : ℚ) := by
  have h := initSim_baseTick_formula [5,5,10] 5 (by decide) (by decide)
  rw [h.1]
  have hg : gcdList ([5,5,10] : List Nat) = 5 := by decide
  have hm : minSliceUint ([5,5,10] : List Nat) = 5 := by decide
  rw [hg, hm]
  norm_num

/-- C4: a zero period anywhere in the list forces the flat-rate fallback
    for every unit: all multipliers become 1 (replicate over the whole
    list, periods with explicit nonzero values included) and the base tick
    is 1e9 * globalTimestep nanoseconds. -/
theorem initSim_flat_rate (periods : List Nat) (t : Nat) (h : 0 ∈ periods) :
    (initSim periods t).multipliers = List.replicate periods.length 1 ∧
    (initSim periods t).baseTick = (1000000000 : ℚ) * (t : ℚ) := by
  rw [initSim, if_pos h]
  constructor
  · simp [List.map_const']
  · rfl

/-- C4 witness at periods [0,5] (second period explicit and nonzero),
    global timestep 30. -/
theorem initSim_flat_rate_witness :
    (initSim ([0,5] : List Nat) 30).multipliers = List.replicate 2 1 ∧
    (initSim ([0,5] : List Nat) 30).baseTick = (1000000000 : ℚ) * (30 : ℚ) :=
  initSim_flat_rate [0,5] 30 (by decide)

/-! Section: ParameterSpec validation (server.go) -/

/-- The two values of encoding/binary byte order used by the source. -/
inductive ByteOrder where
  | big
  | little
deriving DecidableEq

/-- Params from server.go (the ParameterSpec): register address (uint16),
    register kind string, byte-swap flag, value type string, and the
    derived byteOrder field set by getByteOrder. -/
structure Params where
  RegAddress : Nat
  RegType : String
  ByteSwap : Bool
  ValueType : String
  byteOrder : ByteOrder
deriving DecidableEq

/-- getByteOrder from server.go: ByteSwap true selects little-endian,
    otherwise big-endian (the Modbus default). -/
def getByteOrder (p : Params) : Params :=
  if p.ByteSwap then { p with byteOrder := ByteOrder.little }
  else { p with byteOrder := ByteOrder.big }

/-- validValueTypes, copied verbatim from server.go line 45. Note that the
    literal lists "uint32" twice and contains no "int32", "int64" or
    "uint64", although parseRecord has cases for all three and the README
    documents them as accepted. -/
def validValueTypes : List String :=
  ["bool", "int8", "int16", "uint32", "uint8", "uint16", "uint32", "float32", "float64"]

/-- One iteration of the validateParams loop: the switch on RegType
    (coil/discrete force ByteSwap=false and ValueType="bool"; input/holding
    replace an unrecognised ValueType with "float32"; the default branch
    warns about the register type and performs the same ValueType check),
    followed by the params.getByteOrder() call. The warnings it prints are
    not modelled. -/
def validateOne (p : Params) : Params :=
  let q :=
    if p.RegType = "coil" ∨ p.RegType = "discrete" then
      { p with ByteSwap := false, ValueType := "bool" }
    else if p.RegType = "input" ∨ p.RegType = "holding" then
      if p.ValueType ∈ validValueTypes then p else { p with ValueType := "float32" }
    else
      if p.ValueType ∈ validValueTypes then p else { p with ValueType := "float32" }
  getByteOrder q

/-- validateParams from server.go: the loop writes validateOne of each
    element back into the slice, i.e. it maps validateOne over the list. -/
def validateParams (l : List Params) : List Params := l.map validateOne

/-- C5 (code bug): the value types int32, int64 and uint64, documented by
    the README and implemented by parseRecord, are missing from the
    validValueTypes literal (which instead lists "uint32" twice), so
    validateParams replaces them with float32 for holding/input registers
    instead of leaving them unchanged. -/
theorem validateParams_rejects_int32_int64_uint64 :
    (validateParams [{ RegAddress := 0, RegType := "holding", ByteSwap := false,
                       ValueType := "int32", byteOrder := ByteOrder.big }]).map Params.ValueType
      = ["float32"] ∧
    (validateParams [{ RegAddress := 0, RegType := "input", ByteSwap := false,
                       ValueType := "int64", byteOrder := ByteOrder.big }]).map Params.ValueType
      = ["float32"] ∧
    (validateParams [{ RegAddress := 0, RegType := "holding", ByteSwap := false,
                       ValueType := "uint64", byteOrder := ByteOrder.big }]).map Params.ValueType
      = ["float32"] ∧
    "int32" ∉ validValueTypes ∧ "int64" ∉ validValueTypes ∧ "uint64" ∉ validValueTypes := by
  refine ⟨by decide, by decide, by decide, by decide, by decide, by decide⟩

theorem validateOne_RegType (p : Params) : (validateOne p).RegType = p.RegType := by
  simp only [validateOne, getByteOrder]
  by_cases h1 : p.RegType = "coil" ∨ p.RegType = "discrete" <;>
    by_cases h2 : p.RegType = "input" ∨ p.RegType = "holding" <;>
      by_cases h3 : p.ValueType ∈ validValueTypes <;>
        simp [h1, h2, h3] <;>
          split <;> rfl

/-- C6: after validateParams, every ParameterSpec whose register kind is
    coil or discrete has byte-swap false and value type bool, whatever was
    configured for those two fields. -/
theorem validateParams_coil_discrete (l : List Params) (q : Params)
    (hq : q ∈ validateParams l) (hk : q.RegType = "coil" ∨ q.RegType = "discrete") :
    q.ByteSwap = false ∧ q.ValueType = "bool" := by
  rw [validateParams] at hq
  rcases List.mem_map.mp hq with ⟨p, hp, rfl⟩
  have hreg : p.RegType = "coil" ∨ p.RegType = "discrete" := by
    rw [← validateOne_RegType p]
    exact hk
  simp only [validateOne, getByteOrder]
  rw [if_pos hreg]
  split <;> exact ⟨rfl, rfl⟩

/-- C6 witness: a coil spec configured with byte-swap true and value type
    float64 is normalised to byte-swap false, value type bool. -/
theorem validateParams_coil_discrete_witness :
    (validateOne ⟨3, "coil", true, "float64", ByteOrder.big⟩).ByteSwap = false ∧
    (validateOne ⟨3, "coil", true, "float64", ByteOrder.big⟩).ValueType = "bool" :=
  validateParams_coil_discrete [⟨3, "coil", true, "float64", ByteOrder.big⟩]
    (validateOne ⟨3, "coil", true, "float64", ByteOrder.big⟩)
    (by decide) (by decide)

/-! Section: Value codec and cyclic reader (server.go) -/

/-- Outcome classification for the effectful reader code: exit is
    cobra.CheckErr applied to a non-nil error (the process prints the
    error and exits with status 1), panicked is a Go runtime panic, fuel
    is a model artifact marking exhaustion of the explicit recursion
    allowance given to readRecord (the source recursion is unbounded). -/
inductive GoFail where
  | exit
  | panicked
  | fuel
deriving DecidableEq

/-- A decoded CSV cell before serialisation. vEmpty doubles as the nil
    buffer that make([][]byte, n) puts into value and as the empty buffer
    parseRecord returns for an unrecognised value type (both are empty
    byte slices in Go). Signed cells store the mathematical integer the
    Go variable holds after the conversion the source performs. Float
    cells record the accepted token; the byte pattern binary.Write derives
    from it is a function of the token, so equality of GoVal implies
    equality of the byte buffers the source stores. -/
inductive GoVal where
  | vBool (b : Bool)
  | vI8 (n : Int)
  | vI16 (n : Int)
  | vI32 (n : Int)
  | vI64 (n : Int)
  | vU8 (n : Nat)
  | vU16 (n : Nat)
  | vU32 (n : Nat)
  | vU64 (n : Nat)
  | vF32 (tok : String)
  | vF64 (tok : String)
  | vEmpty
deriving DecidableEq

/-- strconv.ParseBool: accepts exactly these twelve strings. -/
def parseBool (s : String) : Option Bool :=
  if s = "1" ∨ s = "t" ∨ s = "T" ∨ s = "TRUE" ∨ s = "true" ∨ s = "True" then some true
  else if s = "0" ∨ s = "f" ∨ s = "F" ∨ s = "FALSE" ∨ s = "false" ∨ s = "False" then some false
  else none

/-- The numeric value of a nonempty sequence of decimal digits, otherwise
    none (strconv syntax at base 10: digits 0-9 only, no underscores).
    Defined over the character list of the string so that it evaluates by
    kernel reduction. -/
def decDigitsL (l : List Char) : Option Nat :=
  if l ≠ [] ∧ l.all Char.isDigit then
    some (l.foldl (fun n c => 10 * n + (c.toNat - 48)) 0)
  else none

/-- The digits test and value of a whole string. -/
def decDigits (s : String) : Option Nat := decDigitsL s.data

/-- strconv.ParseUint(s, 10, bits): digits only (ParseUint accepts no
    sign); a value of at least 2^bits is a range error, and any error is
    fatal to the caller here, so the model folds it into none. -/
def parseUintDec (bits : Nat) (s : String) : Option Nat :=
  match decDigits s with
  | none => none
  | some v => if v < 2 ^ bits then some v else none

/-- strconv.ParseInt(s, 10, bits): an optional single sign followed by
    digits; the magnitude bound is 2^(bits-1) for a negative value and
    2^(bits-1) - 1 for a non-negative one. -/
def parseIntDec (bits : Nat) (s : String) : Option Int :=
  match s.data with
  | [] => none
  | c :: cs =>
    let neg := c = '-'
    let rest := if c = '-' ∨ c = '+' then cs else c :: cs
    match decDigitsL rest with
    | none => none
    | some v =>
      if neg then
        if v ≤ 2 ^ (bits - 1) then some (-(v : Int)) else none
      else
        if v < 2 ^ (bits - 1) then some (v : Int) else none

/-- Two's-complement reinterpretation of an unsigned w-bit value, as
    performed by the Go conversions int16(val) and int32(val) applied to
    the result of strconv.ParseUint in parseRecord. -/
def toSigned (w : Nat) (v : Nat) : Int :=
  if v < 2 ^ (w - 1) then (v : Int) else (v : Int) - 2 ^ w

/-- The success predicates of strconv.ParseFloat at bit sizes 32 and 64,
    kept abstract: the exact Go predicate (decimal and hexadecimal
    floating-point grammar, inf/nan forms, underscore rules, and the
    range-error behaviour at extreme magnitudes) depends on IEEE-754
    rounding that a shallow embedding cannot reproduce; every theorem
    below quantifies over this structure, so each holds in particular for
    the true predicate. -/
structure FloatParse where
  ok32 : String → Bool
  ok64 : String → Bool

/-- A concrete instantiation used by witnesses and counterexamples whose
    data avoids float columns entirely. -/
def pfNone : FloatParse := ⟨fun _ => false, fun _ => false⟩

/-- parseRecord from server.go, at the value level. Each case performs
    the exact strconv call of the source — note that the int16 and int32
    cases call strconv.ParseUint (so a leading minus sign fails to parse
    for them) and reinterpret the unsigned result — and every strconv
    error is passed to cobra.CheckErr, which exits the process. An
    unrecognised value type falls through the switch and yields the empty
    buffer with a nil error. The byteOrder argument of the source affects
    only the serialised byte order, never the parsed value or the error,
    and is dropped here. -/
def parseRecordM (pf : FloatParse) (valueType s : String) : Except GoFail GoVal :=
  if valueType = "bool" then
    match parseBool s with
    | some b => .ok (.vBool b)
    | none => .error .exit
  else if valueType = "int8" then
    match parseIntDec 8 s with
    | some v => .ok (.vI8 v)
    | none => .error .exit
  else if valueType = "int16" then
    match parseUintDec 16 s with
    | some v => .ok (.vI16 (toSigned 16 v))
    | none => .error .exit
  else if valueType = "int32" then
    match parseUintDec 32 s with
    | some v => .ok (.vI32 (toSigned 32 v))
    | none => .error .exit
  else if valueType = "int64" then
    match parseIntDec 64 s with
    | some v => .ok (.vI64 v)
    | none => .error .exit
  else if valueType = "uint8" then
    match parseUintDec 8 s with
    | some v => .ok (.vU8 v)
    | none => .error .exit
  else if valueType = "uint16" then
    match parseUintDec 16 s with
    | some v => .ok (.vU16 v)
    | none => .error .exit
  else if valueType = "uint32" then
    match parseUintDec 32 s with
    | some v => .ok (.vU32 v)
    | none => .error .exit
  else if valueType = "uint64" then
    match parseUintDec 64 s with
    | some v => .ok (.vU64 v)
    | none => .error .exit
  else if valueType = "float32" then
    if pf.ok32 s then .ok (.vF32 s) else .error .exit
  else if valueType = "float64" then
    if pf.ok64 s then .ok (.vF64 s) else .error .exit
  else .ok .vEmpty

/-- LoopReader from server.go: fileRows is the full record sequence of
    the CSV file (optional header row included), pos is the csv.Reader
    cursor position in it, value holds the decoded cells (in Go one byte
    buffer per params entry, here one GoVal each). The filename and the
    os.File handle are not modelled; the file's content is fixed for the
    run. -/
structure LoopReader where
  fileRows : List (List String)
  ignoreHeader : Bool
  ignoreIndex : Bool
  pos : Nat
  value : List GoVal
  params : List Params
deriving DecidableEq

/-- Number of leading file rows consumed as the header by getReader. -/
def hOff (st : LoopReader) : Nat := if st.ignoreHeader then 1 else 0

/-- The data rows of the file: everything after the optional header. -/
def dataRows (st : LoopReader) : List (List String) := st.fileRows.drop (hOff st)

/-- getReader from server.go: re-opens the file, placing the reader at
    the top; with ignoreHeader set it immediately reads one record, and
    that read's error (io.EOF on an empty file included) goes to
    cobra.CheckErr, exiting the process. -/
def getReaderM (st : LoopReader) : Except GoFail LoopReader :=
  if st.ignoreHeader then
    match st.fileRows with
    | [] => .error .exit
    | _ :: _ => .ok { st with pos := 1 }
  else .ok { st with pos := 0 }

/-- The decode loop of readRecord: for i, s := range recordsToParse,
    parse s with params[i] and store the result in value[i]. An index
    beyond params or value is a Go index-out-of-range panic; a strconv
    failure has already exited inside parseRecord. The (err == nil) guard
    of the source tests the binary.Write error, which is always nil for
    these fixed-size values, so the assignment always happens after a
    successful parse. The Nat argument is the absolute column index. -/
def parseLoop (pf : FloatParse) (params : List Params) :
    List String → Nat → List GoVal → Except GoFail (List GoVal)
  | [], _, value => .ok value
  | s :: rest, i, value =>
    match params[i]? with
    | none => .error .panicked
    | some p =>
      match parseRecordM pf p.ValueType s with
      | .error e => .error e
      | .ok v =>
        if i < value.length then parseLoop pf params rest (i + 1) (value.set i v)
        else .error .panicked

/-- readRecord from server.go, with explicit recursion fuel (one unit per
    invocation; the source recursion is unbounded). On io.EOF the source
    re-opens the reader and recurses WITHOUT returning, so once the
    recursive call completes the outer invocation resumes with its own
    stringRecord still nil: if ignoreIndex is set it then evaluates
    stringRecord[1:] on that nil slice — a runtime panic, slice bounds
    out of range [1:0] — and otherwise its loop over the nil record is a
    no-op. The second component of a successful result counts the
    re-opens the call performed. -/
def readRecordF (pf : FloatParse) : Nat → LoopReader → Except GoFail (LoopReader × Nat)
  | 0, _ => .error .fuel
  | fuel + 1, st =>
    match st.fileRows[st.pos]? with
    | none =>
      match getReaderM st with
      | .error e => .error e
      | .ok st1 =>
        match readRecordF pf fuel st1 with
        | .error e => .error e
        | .ok (st2, k) =>
          if st2.ignoreIndex then .error .panicked
          else .ok (st2, k + 1)
    | some row =>
      let st1 := { st with pos := st.pos + 1 }
      let recs := if st1.ignoreIndex ∧ row.length ≠ 1 then row.drop 1 else row
      match parseLoop pf st1.params recs 0 st1.value with
      | .error e => .error e
      | .ok value1 => .ok ({ st1 with value := value1 }, 0)

/-- k successive readRecord calls, each given the same fuel. -/
def readN (pf : FloatParse) (fuel : Nat) : Nat → LoopReader → Except GoFail LoopReader
  | 0, st => .ok st
  | k + 1, st =>
    match readRecordF pf fuel st with
    | .error e => .error e
    | .ok (st1, _) => readN pf fuel k st1

/-- The cell value the decode loop stores for column j of recs when the
    loop runs with absolute start index i (vEmpty in the impossible
    out-of-range or failed-parse cases). -/
def cellVal (pf : FloatParse) (params : List Params) (recs : List String) (i j : Nat) : GoVal :=
  match params[i + j]?, recs[j]? with
  | some p, some s =>
    match parseRecordM pf p.ValueType s with
    | .ok v => v
    | .error _ => .vEmpty
  | _, _ => .vEmpty

/-- Column j of recs exists, has a ParameterSpec, and parses under it. -/
def cellOk (pf : FloatParse) (params : List Params) (recs : List String) (i j : Nat) : Bool :=
  match params[i + j]?, recs[j]? with
  | some p, some s => (parseRecordM pf p.ValueType s).isOk
  | _, _ => false

/-- Every cell of the row parses under its column's ParameterSpec. -/
def rowParsesB (pf : FloatParse) (params : List Params) (row : List String) : Bool :=
  (List.range row.length).all (cellOk pf params row 0)

/-- The value list a fully successful full-overwrite decode of one row
    produces: position j holds the parse of cell j under params[j]. -/
def decodeRow (pf : FloatParse) (params : List Params) (row : List String) : List GoVal :=
  (List.range row.length).map (cellVal pf params row 0)

deriving instance DecidableEq for Except

/-- C1 (code bug): a CSV cell that does not parse as its declared value
    type does NOT get logged with the previous value retained — the
    strconv error is handed to cobra.CheckErr inside parseRecord, which
    exits the whole process. The retention guard (err == nil) in
    readRecord tests only the binary.Write error, which is always nil for
    these fixed-size types, so the retention path is unreachable for
    parse failures. Concretely, a read over the single-cell row "abc"
    declared int16 exits the process, as does parseRecord itself on that
    cell. -/
theorem malformed_cell_exits_process :
    readRecordF pfNone 2 ⟨[["abc"]], false, false, 0, [GoVal.vEmpty],
        [⟨0, "holding", false, "int16", ByteOrder.big⟩]⟩ = .error .exit ∧
    parseRecordM pfNone "int16" "abc" = .error .exit := by
  refine ⟨by decide, by decide⟩

theorem take_succ_set {α : Type} (l : List α) (i : Nat) (v : α) (h : i < l.length) :
    (l.set i v).take (i + 1) = l.take i ++ [v] := by
  induction l generalizing i with
  | nil => simp at h
  | cons a as ih =>
    cases i with
    | zero => simp
    | succ n =>
      have h' : n < as.length := by simpa using h
      simp [List.take_succ_cons, ih n h']

theorem cellOk_cons (pf : FloatParse) (params : List Params) (s : String)
    (rest : List String) (i j : Nat) :
    cellOk pf params (s :: rest) i (j + 1) = cellOk pf params rest (i + 1) j := by
  simp only [cellOk, List.getElem?_cons_succ, Nat.add_succ, Nat.succ_add]

theorem cellVal_cons (pf : FloatParse) (params : List Params) (s : String)
    (rest : List String) (i j : Nat) :
    cellVal pf params (s :: rest) i (j + 1) = cellVal pf params rest (i + 1) j := by
  simp only [cellVal, List.getElem?_cons_succ, Nat.add_succ, Nat.succ_add]

theorem parseLoop_spec (pf : FloatParse) (params : List Params) :
    ∀ (recs : List String) (i : Nat) (value : List GoVal),
      value.length = params.length →
      i + recs.length = params.length →
      (∀ j, j < recs.length → cellOk pf params recs i j = true) →
      parseLoop pf params recs i value
        = .ok (value.take i ++ (List.range recs.length).map (cellVal pf params recs i)) := by
  intro recs
  induction recs with
  | nil =>
    intro i value hv hi _
    simp only [List.length_nil, Nat.add_zero] at hi
    have hiv : i = value.length := by omega
    simp only [parseLoop, List.length_nil, List.range_zero, List.map_nil, List.append_nil]
    rw [hiv, List.take_length]
  | cons s rest ih =>
    intro i value hv hi hok
    have h0 := hok 0 (by simp)
    have hilt : i < value.length := by
      have := hi
      simp only [List.length_cons] at this
      omega
    cases hp : params[i]? with
    | none =>
      exfalso
      rw [cellOk] at h0
      have : (i + 0) = i := rfl
      rw [this, hp] at h0
      simp at h0
    | some p =>
      cases hpr : parseRecordM pf p.ValueType s with
      | error e =>
        exfalso
        rw [cellOk] at h0
        have : (i + 0) = i := rfl
        rw [this, hp] at h0
        simp only [List.getElem?_cons_zero] at h0
        rw [hpr] at h0
        simp [Except.isOk, Except.toBool] at h0
      | ok v =>
        simp only [parseLoop, hp, hpr]
        rw [if_pos hilt]
        rw [ih (i + 1) (value.set i v) (by simpa using hv)
              (by simp only [List.length_cons] at hi; omega)
              (fun j hj => by rw [← cellOk_cons]; exact hok (j + 1) (by simpa using hj))]
        congr 1
        rw [take_succ_set value i v hilt]
        rw [List.length_cons, List.range_succ_eq_map, List.map_cons, List.map_map]
        have hv0 : cellVal pf params (s :: rest) i 0 = v := by
          rw [cellVal]
          have : (i + 0) = i := rfl
          rw [this, hp]
          simp only [List.getElem?_cons_zero]
          rw [hpr]
        have hfun : (cellVal pf params (s :: rest) i) ∘ Nat.succ
            = cellVal pf params rest (i + 1) := by
          funext j
          exact cellVal_cons pf params s rest i j
        rw [hv0, hfun, List.append_assoc]
        rfl

theorem rowParsesB_forall {pf : FloatParse} {params : List Params} {row : List String}
    (hok : rowParsesB pf params row = true) :
    ∀ j, j < row.length → cellOk pf params row 0 j = true := by
  intro j hj
  rw [rowParsesB, List.all_eq_true] at hok
  exact hok j (List.mem_range.mpr hj)

theorem readRecordF_read (pf : FloatParse) (fuel : Nat) (st : LoopReader) (row : List String)
    (hrow : st.fileRows[st.pos]? = some row)
    (hii : st.ignoreIndex = false)
    (hrl : row.length = st.params.length)
    (hv : st.value.length = st.params.length)
    (hok : rowParsesB pf st.params row = true) :
    readRecordF pf (fuel + 1) st
      = .ok ({ st with pos := st.pos + 1, value := decodeRow pf st.params row }, 0) := by
  rw [readRecordF, hrow]
  simp only [hii, false_and, if_false, Bool.false_eq_true]
  rw [parseLoop_spec pf st.params row 0 st.value hv (by omega)
        (rowParsesB_forall hok)]
  simp [decodeRow]

theorem decodeRow_length (pf : FloatParse) (params : List Params) (row : List String) :
    (decodeRow pf params row).length = row.length := by
  simp [decodeRow]

theorem getReaderM_eq (st : LoopReader) (hn : 1 ≤ (dataRows st).length) :
    getReaderM st = .ok { st with pos := hOff st } := by
  rw [getReaderM]
  by_cases hh : st.ignoreHeader
  · cases hF : st.fileRows with
    | nil =>
      exfalso
      simp only [dataRows, hF, List.drop_nil] at hn
      simp at hn
    | cons a as =>
      simp only [hh, if_true, hF]
      have : hOff st = 1 := by simp [hOff, hh]
      rw [this]
  · simp only [hh, if_false, Bool.false_eq_true]
    have : hOff st = 0 := by simp [hOff, hh]
    rw [this]

theorem readRecordF_eof (pf : FloatParse) (fuel : Nat) (st : LoopReader)
    (heof : st.fileRows[st.pos]? = none)
    (hii : st.ignoreIndex = false)
    (hn : 1 ≤ (dataRows st).length)
    (hrl : ((dataRows st).getD 0 []).length = st.params.length)
    (hv : st.value.length = st.params.length)
    (hok : rowParsesB pf st.params ((dataRows st).getD 0 []) = true) :
    readRecordF pf (fuel + 2) st
      = .ok (⟨st.fileRows, st.ignoreHeader, st.ignoreIndex, hOff st + 1,
              decodeRow pf st.params ((dataRows st).getD 0 []), st.params⟩, 1) := by
  have h0 : 0 < (dataRows st).length := hn
  have hgd : (dataRows st).getD 0 [] = (dataRows st)[0] := List.getD_eq_getElem _ _ h0
  have hrow0 : st.fileRows[hOff st]? = some ((dataRows st).getD 0 []) := by
    rw [hgd]
    have h1 : (dataRows st)[0]? = some ((dataRows st)[0]) := List.getElem?_eq_getElem h0
    have h2 : (dataRows st)[0]? = st.fileRows[hOff st + 0]? := by
      show (st.fileRows.drop (hOff st))[0]? = _
      exact List.getElem?_drop _ _ _
    rw [h2] at h1
    simpa using h1
  have hstep : readRecordF pf (fuel + 1) { st with pos := hOff st }
      = .ok (⟨st.fileRows, st.ignoreHeader, st.ignoreIndex, hOff st + 1,
              decodeRow pf st.params ((dataRows st).getD 0 []), st.params⟩, 0) := by
    exact readRecordF_read pf fuel { st with pos := hOff st }
      ((dataRows st).getD 0 []) hrow0 hii hrl hv hok
  show readRecordF pf ((fuel + 1) + 1) st = _
  rw [readRecordF, heof, getReaderM_eq st hn]
  simp only []
  rw [hstep]
  simp [hii]

theorem readN_succ_ok (pf : FloatParse) (fuel k : Nat) (st st1 : LoopReader)
    (h : readN pf fuel k st = .ok st1) :
    readN pf fuel (k + 1) st
      = match readRecordF pf fuel st1 with
        | .error e => .error e
        | .ok (st2, _) => .ok st2 := by
  induction k generalizing st with
  | zero =>
    rw [readN] at h
    injection h with h1
    subst h1
    rw [readN]
    cases hr : readRecordF pf fuel st with
    | error e => simp [hr]
    | ok p =>
      cases p with
      | mk st2 n => simp [hr, readN]
  | succ k ih =>
    rw [readN] at h
    cases hr : readRecordF pf fuel st with
    | error e =>
      rw [hr] at h
      simp at h
    | ok p =>
      cases p with
      | mk stm n =>
        rw [hr] at h
        simp only [] at h
        rw [readN, hr]
        simp only []
        exact ih stm h

theorem mod_step (k n : Nat) (hn : 1 ≤ n) (hk : 1 ≤ k) :
    (if (k - 1) % n + 1 < n then (k - 1) % n + 1 else 0) = k % n := by
  have hq := Nat.div_add_mod (k - 1) n
  have hjn : (k - 1) % n < n := Nat.mod_lt _ (by omega)
  have hk1 : k = n * ((k - 1) / n) + ((k - 1) % n + 1) := by omega
  have key : k % n = ((k - 1) % n + 1) % n := by
    conv_lhs => rw [hk1]
    rw [Nat.mul_add_mod]
  by_cases hlt : (k - 1) % n + 1 < n
  · rw [if_pos hlt, key, Nat.mod_eq_of_lt hlt]
  · have hje : (k - 1) % n + 1 = n := by omega
    rw [if_neg hlt, key, hje, Nat.mod_self]

theorem fileRow_at (st : LoopReader) (j : Nat) (hj : j < (dataRows st).length) :
    st.fileRows[hOff st + j]? = some ((dataRows st).getD j []) := by
  have hgd : (dataRows st).getD j [] = (dataRows st)[j] := List.getD_eq_getElem _ _ hj
  rw [hgd]
  have h1 : (dataRows st)[j]? = some ((dataRows st)[j]) := List.getElem?_eq_getElem hj
  have h2 : (dataRows st)[j]? = st.fileRows[hOff st + j]? := by
    show (st.fileRows.drop (hOff st))[j]? = _
    exact List.getElem?_drop _ _ _
  rw [h2] at h1
  exact h1

theorem dataRows_getD_mem (st : LoopReader) (j : Nat) (hj : j < (dataRows st).length) :
    (dataRows st).getD j [] ∈ dataRows st := by
  rw [List.getD_eq_getElem _ _ hj]
  exact List.getElem_mem hj

/-- C7 (amended: index-skip disabled): a cyclic source whose ignoreIndex
    flag is off, freshly opened over a file with n data rows (n at least
    one, every cell parseable, every row as wide as the params list), is
    periodic with period n: the k-th readRecord call succeeds and leaves
    as decoded content exactly the decode of data row ((k-1) mod n)+1 of
    the file (0-indexed: (k-1) mod n), with the cursor just past that
    row. Decoded-content equality for k and k+n follows since the stored
    value depends only on that row. The amendment is forced by the
    nil-record slice panic of the wrap-around read when ignoreIndex is
    set (see the counterexample). -/
theorem cyclic_reads (pf : FloatParse) (st : LoopReader)
    (hii : st.ignoreIndex = false)
    (hpos : st.pos = hOff st)
    (hn : 1 ≤ (dataRows st).length)
    (hrl : ∀ row ∈ dataRows st, row.length = st.params.length)
    (hok : ∀ row ∈ dataRows st, rowParsesB pf st.params row = true)
    (hv : st.value.length = st.params.length) :
    ∀ k, 1 ≤ k →
      readN pf 2 k st
        = .ok ⟨st.fileRows, st.ignoreHeader, st.ignoreIndex,
               hOff st + (k - 1) % (dataRows st).length + 1,
               decodeRow pf st.params
                 ((dataRows st).getD ((k - 1) % (dataRows st).length) []),
               st.params⟩ := by
  intro k hk
  induction k, hk using Nat.le_induction with
  | base =>
    have h0 : 0 < (dataRows st).length := hn
    have hrow : st.fileRows[st.pos]? = some ((dataRows st).getD 0 []) := by
      rw [hpos]
      simpa using fileRow_at st 0 h0
    have hr := readRecordF_read pf 1 st ((dataRows st).getD 0 []) hrow hii
      (hrl _ (dataRows_getD_mem st 0 h0)) hv (hok _ (dataRows_getD_mem st 0 h0))
    rw [readN, hr]
    simp only [readN]
    simp [hpos, Nat.zero_mod]
  | succ k hk1 ih =>
    have hjn : (k - 1) % (dataRows st).length < (dataRows st).length :=
      Nat.mod_lt _ (by omega)
    have hmod := mod_step k (dataRows st).length hn hk1
    rw [readN_succ_ok pf 2 k st _ ih]
    by_cases hb : (k - 1) % (dataRows st).length + 1 < (dataRows st).length
    · have hkmod : k % (dataRows st).length = (k - 1) % (dataRows st).length + 1 := by
        rw [← hmod, if_pos hb]
      have hrow := fileRow_at st ((k - 1) % (dataRows st).length + 1) hb
      have hr := readRecordF_read pf 1
        ⟨st.fileRows, st.ignoreHeader, st.ignoreIndex,
         hOff st + (k - 1) % (dataRows st).length + 1,
         decodeRow pf st.params
           ((dataRows st).getD ((k - 1) % (dataRows st).length) []),
         st.params⟩
        ((dataRows st).getD ((k - 1) % (dataRows st).length + 1) [])
        (by simpa [Nat.add_assoc] using hrow)
        hii
        (hrl _ (dataRows_getD_mem st _ hb))
        (by
          show (decodeRow pf st.params _).length = st.params.length
          rw [decodeRow_length]
          exact hrl _ (dataRows_getD_mem st _ hjn))
        (hok _ (dataRows_getD_mem st _ hb))
      rw [hr]
      simp only []
      have hk1e : k + 1 - 1 = k := rfl
      rw [hk1e, hkmod]
      rfl
    · have hkmod : k % (dataRows st).length = 0 := by
        rw [← hmod, if_neg hb]
      have hje : (k - 1) % (dataRows st).length + 1 = (dataRows st).length := by omega
      have hlen : (dataRows st).length = st.fileRows.length - hOff st := by
        show (st.fileRows.drop (hOff st)).length = _
        exact List.length_drop _ _
      have hoff_le : hOff st ≤ st.fileRows.length := by
        by_contra hc
        have : (dataRows st).length = 0 := by omega
        omega
      have heof : st.fileRows[hOff st + (k - 1) % (dataRows st).length + 1]? = none := by
        apply List.getElem?_eq_none
        omega
      have hr := readRecordF_eof pf 0
        ⟨st.fileRows, st.ignoreHeader, st.ignoreIndex,
         hOff st + (k - 1) % (dataRows st).length + 1,
         decodeRow pf st.params
           ((dataRows st).getD ((k - 1) % (dataRows st).length) []),
         st.params⟩
        heof hii hn
        (hrl _ (dataRows_getD_mem st 0 hn))
        (by
          show (decodeRow pf st.params _).length = st.params.length
          rw [decodeRow_length]
          exact hrl _ (dataRows_getD_mem st _ hjn))
        (hok _ (dataRows_getD_mem st 0 hn))
      rw [hr]
      simp only []
      have hk1e : k + 1 - 1 = k := rfl
      rw [hk1e, hkmod]
      rfl

/-- C7 witness: over the 3-row file 7/8/9 (no header, no index column),
    the 4th read succeeds and stores the decode of row 1 again, with the
    cursor back just past row 1 — wrap-around verified by equality of the
    decoded content. -/
theorem cyclic_reads_witness :
    readN pfNone 2 4 ⟨[["7"], ["8"], ["9"]], false, false, 0, [GoVal.vEmpty],
        [⟨0, "holding", false, "int16", ByteOrder.big⟩]⟩
      = .ok ⟨[["7"], ["8"], ["9"]], false, false, 1, [GoVal.vI16 7],
             [⟨0, "holding", false, "int16", ByteOrder.big⟩]⟩ := by
  have h := cyclic_reads pfNone
    ⟨[["7"], ["8"], ["9"]], false, false, 0, [GoVal.vEmpty],
     [⟨0, "holding", false, "int16", ByteOrder.big⟩]⟩
    rfl (by decide) (by decide) (by decide) (by decide) (by decide) 4 (by decide)
  rw [h]
  decide

/-- C7 counterexample: a cyclic source WITH the index-skip flag set over a
    3-row file whose every cell is parseable reads rows 1..3 normally, but
    the 4th read — the wrap-around the claim says returns row 1 — panics:
    after the transparent re-open and the recursive read, the outer
    readRecord invocation resumes with its nil stringRecord and evaluates
    stringRecord[1:], a slice-bounds panic. -/
theorem cyclic_reads_index_counterexample :
    readN pfNone 2 3 ⟨[["1", "7"], ["2", "8"], ["3", "9"]], false, true, 0, [GoVal.vEmpty],
        [⟨0, "holding", false, "int16", ByteOrder.big⟩]⟩
      = .ok ⟨[["1", "7"], ["2", "8"], ["3", "9"]], false, true, 3, [GoVal.vI16 9],
             [⟨0, "holding", false, "int16", ByteOrder.big⟩]⟩ ∧
    readN pfNone 2 4 ⟨[["1", "7"], ["2", "8"], ["3", "9"]], false, true, 0, [GoVal.vEmpty],
        [⟨0, "holding", false, "int16", ByteOrder.big⟩]⟩ = .error .panicked := by
  refine ⟨by decide, by decide⟩

/-- C9 (amended: index-skip disabled): a readRecord call that hits
    end-of-stream re-opens the file exactly once (count 1 in the result),
    re-applies the header skip, terminates within exactly one recursive
    retry (fuel 2 suffices, whatever extra fuel is available), and leaves
    the decode of the first data row with the cursor just past it. The
    restriction of the index-skip flag is forced by the nil-record slice
    panic of the resumed outer invocation (see the counterexample). -/
theorem eof_reopen_once (pf : FloatParse) (fuel : Nat) (st : LoopReader)
    (heof : st.fileRows[st.pos]? = none)
    (hii : st.ignoreIndex = false)
    (hn : 1 ≤ (dataRows st).length)
    (hrl : ((dataRows st).getD 0 []).length = st.params.length)
    (hv : st.value.length = st.params.length)
    (hok : rowParsesB pf st.params ((dataRows st).getD 0 []) = true) :
    readRecordF pf (fuel + 2) st
      = .ok (⟨st.fileRows, st.ignoreHeader, st.ignoreIndex, hOff st + 1,
              decodeRow pf st.params ((dataRows st).getD 0 []), st.params⟩, 1) :=
  readRecordF_eof pf fuel st heof hii hn hrl hv hok

/-- C9 witness: a reader at end-of-stream over a file with a header row
    and the single data row 42 re-opens once, skips the header again, and
    returns the decode of that row. -/
theorem eof_reopen_once_witness :
    readRecordF pfNone 2 ⟨[["hdr"], ["42"]], true, false, 2, [GoVal.vEmpty],
        [⟨0, "holding", false, "uint8", ByteOrder.big⟩]⟩
      = .ok (⟨[["hdr"], ["42"]], true, false, 2, [GoVal.vU8 42],
              [⟨0, "holding", false, "uint8", ByteOrder.big⟩]⟩, 1) := by
  have h := eof_reopen_once pfNone 0
    ⟨[["hdr"], ["42"]], true, false, 2, [GoVal.vEmpty],
     [⟨0, "holding", false, "uint8", ByteOrder.big⟩]⟩
    (by decide) rfl (by decide) (by decide) (by decide) (by decide)
  rw [h]
  decide

/-- C9 counterexample: with the index-skip flag set the wrap-around call
    does not terminate by returning the first data row — it panics after
    the re-open, for fuel 2 and likewise with ample fuel. -/
theorem eof_reopen_index_counterexample :
    readRecordF pfNone 2 ⟨[["5", "6"]], false, true, 1, [GoVal.vEmpty],
        [⟨0, "holding", false, "uint8", ByteOrder.big⟩]⟩ = .error .panicked ∧
    readRecordF pfNone 9 ⟨[["5", "6"]], false, true, 1, [GoVal.vEmpty],
        [⟨0, "holding", false, "uint8", ByteOrder.big⟩]⟩ = .error .panicked := by
  refine ⟨by decide, by decide⟩

/-! Section: Fault injection (server.go: Serve and setRequestResponse) -/

/-- A registered function-code handler of one simulation's server: either
    the standard mbserver handler for that code or slaveDeviceBusy, the
    responder that answers every request with the SlaveDeviceFailure
    exception. -/
inductive FuncHandler where
  | standard (code : Nat)
  | slaveDeviceBusy
deriving DecidableEq

/-- The eight function codes of the defaults map in setRequestResponse
    (read coils/discrete/holding/input, the single and multiple write
    codes). -/
def functionCodes : List Nat := [1, 2, 3, 4, 5, 6, 15, 16]

/-- setRequestResponse from server.go, as the handler table that results
    on the eight standard codes: respond=true re-registers each default
    handler, respond=false registers slaveDeviceBusy for every code. The
    Go map iteration order does not affect the resulting table. -/
def setRequestResponse (respond : Bool) : List (Nat × FuncHandler) :=
  if respond then functionCodes.map fun c => (c, FuncHandler.standard c)
  else functionCodes.map fun c => (c, FuncHandler.slaveDeviceBusy)

/-- The handler table installed for one due unit on one tick of Serve:
    the source calls s[i].setRequestResponse(rand.Float32() > missingRate)
    with draw the fresh rand.Float32() value (uniform in [0,1)) and p the
    unit's missingRate; the float32 comparison is modelled on exact
    rationals. -/
def serveTickHandlers (draw p : ℚ) : List (Nat × FuncHandler) :=
  setRequestResponse (decide (p < draw))

/-- C8 counterexample: the claim says fault mode is entered exactly when
    the drawn value is strictly less than the probability — so a unit
    with probability 0 never enters fault mode. At draw = 0 and p = 0
    (rand.Float32 does return exactly 0) the source computes
    respond = (0 > 0) = false and installs the busy responder on every
    code, although draw < p is false. -/
theorem fault_strict_less_counterexample :
    serveTickHandlers 0 0 = functionCodes.map (fun c => (c, FuncHandler.slaveDeviceBusy)) ∧
    ¬ ((0 : ℚ) < 0) := by
  refine ⟨by decide, by decide⟩

/-- C8 (amended): every time a unit is due, one uniform draw in [0,1) is
    compared against the unit's configured fault probability, and the
    unit enters fault mode — all eight standard function-code handlers
    replaced by the busy responder — exactly when the draw is LESS THAN
    OR EQUAL to the probability (the source's respond condition is
    draw > p, so equality also faults); the standard handlers are
    installed exactly otherwise. A unit with probability 0 hence enters
    fault mode on a tick exactly when the draw is exactly 0. -/
theorem fault_iff_draw_le (draw p : ℚ)
    (h0 : 0 ≤ draw) (h1 : draw < 1) (hp0 : 0 ≤ p) (hp1 : p < 1) :
    (serveTickHandlers draw p
        = functionCodes.map (fun c => (c, FuncHandler.slaveDeviceBusy)) ↔ draw ≤ p) ∧
    (serveTickHandlers draw p
        = functionCodes.map (fun c => (c, FuncHandler.standard c)) ↔ p < draw) ∧
    (p = 0 →
      (serveTickHandlers draw p
          = functionCodes.map (fun c => (c, FuncHandler.slaveDeviceBusy)) ↔ draw = 0)) := by
  by_cases h : p < draw
  · simp only [serveTickHandlers, setRequestResponse, decide_eq_true h, if_true]
    refine ⟨iff_of_false (by decide) (not_le.mpr h), ?_, ?_⟩
    · simpa using h
    · intro hp
      refine iff_of_false (by decide) ?_
      intro hd
      rw [hd, hp] at h
      exact absurd h (by norm_num)
  · have hle : draw ≤ p := le_of_not_lt h
    have hdf : decide (p < draw) = false := by simpa using h
    simp only [serveTickHandlers, setRequestResponse, hdf, if_false, Bool.false_eq_true]
    refine ⟨?_, iff_of_false (by decide) h, ?_⟩
    · simpa using hle
    · intro hp
      have hd0 : draw = 0 := le_antisymm (hp ▸ hle) h0
      simpa using hd0

/-- C8 witness at draw 1/2, probability 1/4 (the unit responds normally
    on that tick). -/
theorem fault_iff_draw_le_witness :
    (serveTickHandlers (1/2) (1/4)
        = functionCodes.map (fun c => (c, FuncHandler.slaveDeviceBusy)) ↔ (1/2 : ℚ) ≤ 1/4) ∧
    (serveTickHandlers (1/2) (1/4)
        = functionCodes.map (fun c => (c, FuncHandler.standard c)) ↔ (1/4 : ℚ) < 1/2) ∧
    ((1/4 : ℚ) = 0 →
      (serveTickHandlers (1/2) (1/4)
          = functionCodes.map (fun c => (c, FuncHandler.slaveDeviceBusy)) ↔ (1/2 : ℚ) = 0)) :=
  fault_iff_draw_le (1/2) (1/4) (by norm_num) (by norm_num) (by norm_num) (by norm_num)

/-! Section: Register-bank update (server.go: updateServer, replaceSubSlice) -/

/-- The four register tables of one mbserver.Server. Each is a slice of
    length 65536 indexed by a uint16 address (bytes for Coils and
    DiscreteInputs, uint16 words for HoldingRegisters and InputRegisters);
    modelled as total functions on addresses. -/
structure RegisterBanks where
  Coils : Nat → Nat
  DiscreteInputs : Nat → Nat
  HoldingRegisters : Nat → Nat
  InputRegisters : Nat → Nat

/-- mbserver.BytesToUint16, the external helper replaceSubSlice calls:
    the byte slice is paired big-endian into len/2 uint16 words. Only the
    word count matters to the claims below. -/
def bytesToUint16 (src : List Nat) : List Nat :=
  (List.range (src.length / 2)).map fun i => 256 * src.getD (2 * i) 0 + src.getD (2 * i + 1) 0

/-- The write loop of replaceSubSlice: word i is stored at index
    start + uint16(i); the index addition is uint16 arithmetic, hence the
    % 65536. -/
def writeWords (dst : Nat → Nat) (words : List Nat) (start i : Nat) : Nat → Nat :=
  match words with
  | [] => dst
  | w :: ws => writeWords (Function.update dst ((start + i) % 65536) w) ws start (i + 1)

/-- replaceSubSlice from server.go. -/
def replaceSubSlice (dst : Nat → Nat) (src : List Nat) (start : Nat) : Nat → Nat :=
  writeWords dst (bytesToUint16 src) start 0

/-- One iteration of the updateServer loop for ParameterSpec p, where v?
    is value[i] (none when i is beyond value — the branches that read
    value[i] then panic in Go). coil/discrete store the single byte
    value[i][0] at the address (index panic on an empty buffer);
    holding/input write the buffer's words via replaceSubSlice; any other
    register kind matches no case of the switch and writes nothing. -/
def updateOne (p : Params) (v? : Option (List Nat)) (b : RegisterBanks) :
    Option RegisterBanks :=
  if p.RegType = "coil" then
    match v? with
    | none => none
    | some buf =>
      match buf.head? with
      | none => none
      | some x => some { b with Coils := Function.update b.Coils p.RegAddress x }
  else if p.RegType = "discrete" then
    match v? with
    | none => none
    | some buf =>
      match buf.head? with
      | none => none
      | some x =>
        some { b with DiscreteInputs := Function.update b.DiscreteInputs p.RegAddress x }
  else if p.RegType = "holding" then
    match v? with
    | none => none
    | some buf =>
      some { b with HoldingRegisters := replaceSubSlice b.HoldingRegisters buf p.RegAddress }
  else if p.RegType = "input" then
    match v? with
    | none => none
    | some buf =>
      some { b with InputRegisters := replaceSubSlice b.InputRegisters buf p.RegAddress }
  else some b

/-- The loop of updateServer from server.go: for i, param := range
    params, write value[i] per the switch on param.RegType; i is the
    running column index. -/
def updateServerGo (value : List (List Nat)) :
    List Params → Nat → RegisterBanks → Option RegisterBanks
  | [], _, b => some b
  | p :: ps, i, b =>
    match updateOne p value[i]? b with
    | none => none
    | some b1 => updateServerGo value ps (i + 1) b1

/-- updateServer from server.go. -/
def updateServer (params : List Params) (value : List (List Nat)) (b : RegisterBanks) :
    Option RegisterBanks :=
  updateServerGo value params 0 b

/-- The write addresses the claim allows in the table of the given
    register kind: for each spec of that kind, the addresses
    regAddress + k (mod 2^16) for k below the decoded value's width in
    16-bit words — the derived width of the specification: 1 word for the
    one-cell bool tables (coil/discrete), len/2 words for the word
    tables. -/
def claimAddrs (kind : String) (value : List (List Nat)) :
    List Params → Nat → List Nat
  | [], _ => []
  | p :: ps, i =>
    (if p.RegType = kind then
      (List.range (if kind = "coil" ∨ kind = "discrete" then 1
                   else (value.getD i []).length / 2)).map
        fun k => (p.RegAddress + k) % 65536
     else []) ++ claimAddrs kind value ps (i + 1)

/-- The per-tick multi-simulation view: simulation j's server is updated
    in place, all other servers are untouched (each Simulation owns its
    own mbserver.Server instance from NewSimulation). -/
def updateServers (servers : List RegisterBanks) (j : Nat) (params : List Params)
    (value : List (List Nat)) : Option (List RegisterBanks) :=
  match servers[j]? with
  | none => none
  | some b =>
    match updateServer params value b with
    | none => none
    | some b1 => some (servers.set j b1)

theorem writeWords_frame (words : List Nat) (dst : Nat → Nat) (start i a : Nat)
    (h : ∀ k, k < words.length → a ≠ (start + (i + k)) % 65536) :
    writeWords dst words start i a = dst a := by
  induction words generalizing dst i with
  | nil => rfl
  | cons w ws ih =>
    rw [writeWords]
    rw [ih _ (i + 1) fun k hk => by
      have hk1 := h (k + 1) (by simpa using hk)
      have harith : i + (k + 1) = i + 1 + k := by omega
      rw [harith] at hk1
      exact hk1]
    exact Function.update_noteq (by simpa using h 0 (by simp)) _ _

theorem replaceSubSlice_frame (dst : Nat → Nat) (src : List Nat) (start a : Nat)
    (h : ∀ k, k < src.length / 2 → a ≠ (start + k) % 65536) :
    replaceSubSlice dst src start a = dst a := by
  rw [replaceSubSlice]
  apply writeWords_frame
  intro k hk
  have hlen : (bytesToUint16 src).length = src.length / 2 := by simp [bytesToUint16]
  rw [hlen] at hk
  simpa using h k hk

theorem updateOne_frame (p : Params) (v? : Option (List Nat)) (b b1 : RegisterBanks)
    (hup : updateOne p v? b = some b1) (hpa : p.RegAddress < 65536) (a : Nat) :
    (a ∉ (if p.RegType = "coil" then
            (List.range 1).map (fun k => (p.RegAddress + k) % 65536) else []) →
      b1.Coils a = b.Coils a) ∧
    (a ∉ (if p.RegType = "discrete" then
            (List.range 1).map (fun k => (p.RegAddress + k) % 65536) else []) →
      b1.DiscreteInputs a = b.DiscreteInputs a) ∧
    (a ∉ (if p.RegType = "holding" then
            (List.range ((v?.getD []).length / 2)).map
              (fun k => (p.RegAddress + k) % 65536) else []) →
      b1.HoldingRegisters a = b.HoldingRegisters a) ∧
    (a ∉ (if p.RegType = "input" then
            (List.range ((v?.getD []).length / 2)).map
              (fun k => (p.RegAddress + k) % 65536) else []) →
      b1.InputRegisters a = b.InputRegisters a) := by
  rw [updateOne.eq_def] at hup
  by_cases hc : p.RegType = "coil"
  · rw [if_pos hc] at hup
    cases hv : v? with
    | none => rw [hv] at hup; simp at hup
    | some buf =>
      rw [hv] at hup
      simp only [] at hup
      cases hh : buf.head? with
      | none => rw [hh] at hup; simp at hup
      | some x =>
        rw [hh] at hup
        injection hup with h1
        subst h1
        have hcn : ¬ p.RegType = "discrete" := by rw [hc]; decide
        have hcn2 : ¬ p.RegType = "holding" := by rw [hc]; decide
        have hcn3 : ¬ p.RegType = "input" := by rw [hc]; decide
        refine ⟨?_, fun _ => rfl, fun _ => rfl, fun _ => rfl⟩
        intro hna
        rw [if_pos hc] at hna
        have hr1 : (List.range 1).map (fun k => (p.RegAddress + k) % 65536)
            = [(p.RegAddress + 0) % 65536] := rfl
        rw [hr1, List.mem_singleton] at hna
        refine Function.update_noteq ?_ _ _
        intro hEq
        apply hna
        rw [hEq, Nat.add_zero, Nat.mod_eq_of_lt hpa]
  · rw [if_neg hc] at hup
    by_cases hd : p.RegType = "discrete"
    · rw [if_pos hd] at hup
      cases hv : v? with
      | none => rw [hv] at hup; simp at hup
      | some buf =>
        rw [hv] at hup
        simp only [] at hup
        cases hh : buf.head? with
        | none => rw [hh] at hup; simp at hup
        | some x =>
          rw [hh] at hup
          injection hup with h1
          subst h1
          refine ⟨fun _ => rfl, ?_, fun _ => rfl, fun _ => rfl⟩
          intro hna
          rw [if_pos hd] at hna
          have hr1 : (List.range 1).map (fun k => (p.RegAddress + k) % 65536)
              = [(p.RegAddress + 0) % 65536] := rfl
          rw [hr1, List.mem_singleton] at hna
          refine Function.update_noteq ?_ _ _
          intro hEq
          apply hna
          rw [hEq, Nat.add_zero, Nat.mod_eq_of_lt hpa]
    · rw [if_neg hd] at hup
      by_cases hho : p.RegType = "holding"
      · rw [if_pos hho] at hup
        cases hv : v? with
        | none => rw [hv] at hup; simp at hup
        | some buf =>
          rw [hv] at hup
          simp only [] at hup
          injection hup with h1
          subst h1
          refine ⟨fun _ => rfl, fun _ => rfl, ?_, fun _ => rfl⟩
          intro hna
          rw [if_pos hho] at hna
          apply replaceSubSlice_frame
          intro k hk hEq
          apply hna
          rw [List.mem_map]
          exact ⟨k, List.mem_range.mpr (by simpa using hk), hEq.symm⟩
      · rw [if_neg hho] at hup
        by_cases hin : p.RegType = "input"
        · rw [if_pos hin] at hup
          cases hv : v? with
          | none => rw [hv] at hup; simp at hup
          | some buf =>
            rw [hv] at hup
            simp only [] at hup
            injection hup with h1
            subst h1
            refine ⟨fun _ => rfl, fun _ => rfl, fun _ => rfl, ?_⟩
            intro hna
            rw [if_pos hin] at hna
            apply replaceSubSlice_frame
            intro k hk hEq
            apply hna
            rw [List.mem_map]
            exact ⟨k, List.mem_range.mpr (by simpa using hk), hEq.symm⟩
        · rw [if_neg hin] at hup
          injection hup with h1
          subst h1
          exact ⟨fun _ => rfl, fun _ => rfl, fun _ => rfl, fun _ => rfl⟩

theorem updateServerGo_frame (value : List (List Nat)) :
    ∀ (params : List Params) (i : Nat) (b b' : RegisterBanks),
      (∀ p ∈ params, p.RegAddress < 65536) →
      updateServerGo value params i b = some b' →
      ∀ a : Nat,
        (a ∉ claimAddrs "coil" value params i → b'.Coils a = b.Coils a) ∧
        (a ∉ claimAddrs "discrete" value params i →
          b'.DiscreteInputs a = b.DiscreteInputs a) ∧
        (a ∉ claimAddrs "holding" value params i →
          b'.HoldingRegisters a = b.HoldingRegisters a) ∧
        (a ∉ claimAddrs "input" value params i →
          b'.InputRegisters a = b.InputRegisters a) := by
  intro params
  induction params with
  | nil =>
    intro i b b' _ hup a
    rw [updateServerGo] at hup
    injection hup with h1
    subst h1
    exact ⟨fun _ => rfl, fun _ => rfl, fun _ => rfl, fun _ => rfl⟩
  | cons p ps ih =>
    intro i b b' hA hup a
    rw [updateServerGo] at hup
    cases h1 : updateOne p value[i]? b with
    | none => rw [h1] at hup; simp at hup
    | some b1 =>
      rw [h1] at hup
      simp only [] at hup
      have hpa : p.RegAddress < 65536 := hA p (List.mem_cons_self _ _)
      have hrec := ih (i + 1) b1 b' (fun q hq => hA q (List.mem_cons_of_mem _ hq)) hup a
      have hone := updateOne_frame p value[i]? b b1 h1 hpa a
      have hgd : value.getD i [] = (value[i]?).getD [] := List.getD_eq_getElem?_getD _ _ _
      refine ⟨?_, ?_, ?_, ?_⟩
      · intro hna
        rw [claimAddrs, List.mem_append] at hna
        push_neg at hna
        rw [hrec.1 hna.2]
        refine hone.1 ?_
        have := hna.1
        by_cases hc : p.RegType = "coil"
        · rw [if_pos hc]
          rw [if_pos hc] at this
          simpa using this
        · rw [if_neg hc]
          simp
      · intro hna
        rw [claimAddrs, List.mem_append] at hna
        push_neg at hna
        rw [hrec.2.1 hna.2]
        refine hone.2.1 ?_
        have := hna.1
        by_cases hc : p.RegType = "discrete"
        · rw [if_pos hc]
          rw [if_pos hc] at this
          simpa using this
        · rw [if_neg hc]
          simp
      · intro hna
        rw [claimAddrs, List.mem_append] at hna
        push_neg at hna
        rw [hrec.2.2.1 hna.2]
        refine hone.2.2.1 ?_
        have := hna.1
        by_cases hc : p.RegType = "holding"
        · rw [if_pos hc]
          rw [if_pos hc] at this
          rw [hgd] at this
          simpa using this
        · rw [if_neg hc]
          simp
      · intro hna
        rw [claimAddrs, List.mem_append] at hna
        push_neg at hna
        rw [hrec.2.2.2 hna.2]
        refine hone.2.2.2 ?_
        have := hna.1
        by_cases hc : p.RegType = "input"
        · rw [if_pos hc]
          rw [if_pos hc] at this
          rw [hgd] at this
          simpa using this
        · rw [if_neg hc]
          simp

/-- C10: one simulation's update writes only the register-bank cells its
    own ParameterSpecs address — for each spec, the addresses
    regAddress + k (mod 2^16) for k below the decoded buffer's width in
    16-bit words (one word for the single-cell coil/discrete tables), in
    the single table its register kind selects. Every other cell of all
    four tables of that server is unchanged, every other simulation's
    server is untouched, and a spec with an unrecognised register kind
    contributes an empty allowed set for every table (it writes
    nothing). -/
theorem updateServer_writes_only (servers : List RegisterBanks) (j : Nat)
    (params : List Params) (value : List (List Nat)) (servers' : List RegisterBanks)
    (haddr : ∀ p ∈ params, p.RegAddress < 65536)
    (hup : updateServers servers j params value = some servers') :
    (∀ i, i ≠ j → servers'[i]? = servers[i]?) ∧
    (∀ b b', servers[j]? = some b → servers'[j]? = some b' →
      ∀ a : Nat,
        (a ∉ claimAddrs "coil" value params 0 → b'.Coils a = b.Coils a) ∧
        (a ∉ claimAddrs "discrete" value params 0 →
          b'.DiscreteInputs a = b.DiscreteInputs a) ∧
        (a ∉ claimAddrs "holding" value params 0 →
          b'.HoldingRegisters a = b.HoldingRegisters a) ∧
        (a ∉ claimAddrs "input" value params 0 →
          b'.InputRegisters a = b.InputRegisters a)) := by
  rw [updateServers] at hup
  cases hb : servers[j]? with
  | none => rw [hb] at hup; simp at hup
  | some b0 =>
    rw [hb] at hup
    simp only [] at hup
    cases hu : updateServer params value b0 with
    | none => rw [hu] at hup; simp at hup
    | some b1 =>
      rw [hu] at hup
      simp only [] at hup
      injection hup with h1
      subst h1
      have hjlt : j < servers.length := by
        by_contra hc
        rw [List.getElem?_eq_none (by omega)] at hb
        exact absurd hb (by simp)
      constructor
      · intro i hi
        exact List.getElem?_set_ne (fun h => hi h.symm)
      · intro b b' hbj hbj'
        injection hbj with hbeq
        rw [List.getElem?_set_self hjlt] at hbj'
        injection hbj' with hbeq'
        subst hbeq
        subst hbeq'
        intro a
        rw [updateServer] at hu
        exact updateServerGo_frame value params 0 _ _ haddr hu a

/-- All-zero register banks, used by the C10 witness. -/
def zeroBanks : RegisterBanks :=
  ⟨fun _ => 0, fun _ => 0, fun _ => 0, fun _ => 0⟩

/-- The single holding-register uint32 spec at address 5 of the C10
    witness. -/
def demoParams : List Params := [⟨5, "holding", false, "uint32", ByteOrder.big⟩]

/-- The one decoded 4-byte buffer of the C10 witness. -/
def demoValue : List (List Nat) := [[1, 2, 3, 4]]

/-- The bank after the C10 witness update: words at addresses 5 and 6. -/
def demoBank1 : RegisterBanks :=
  { zeroBanks with
      HoldingRegisters := replaceSubSlice zeroBanks.HoldingRegisters [1, 2, 3, 4] 5 }

/-- C10 witness: two simulations, the first updated with a uint32 holding
    spec at address 5; the second server is untouched, and in the first,
    holding address 7 and coil address 9 are unchanged. -/
theorem updateServer_writes_only_witness :
    (([zeroBanks, zeroBanks] : List RegisterBanks).set 0 demoBank1)[1]?
        = some zeroBanks ∧
    demoBank1.HoldingRegisters 7 = zeroBanks.HoldingRegisters 7 ∧
    demoBank1.Coils 9 = zeroBanks.Coils 9 := by
  have h := updateServer_writes_only [zeroBanks, zeroBanks] 0 demoParams demoValue
    ([zeroBanks, zeroBanks].set 0 demoBank1) (by decide) rfl
  have h2 := h.2 zeroBanks demoBank1 rfl rfl
  refine ⟨?_, (h2 7).2.2.1 (by decide), (h2 9).1 (by decide)⟩
  rw [h.1 1 (by decide)]
  rfl
